import Mathlib

/-!
# Verification of the lagrangebench training core

Shallow embedding of the training loop of `lagrangebench/train/trainer.py`
(`_mse`, `_update`, `_train`) and of the windowed dataset in
`gns_jax/data.py` (`H5Dataset.get_window`), together with theorems settling
the specification claims about them.

Conventions:
* machine floats are modelled as `ℚ`; a non-finite float result (NaN/Inf
  coming from an unguarded division by zero) is modelled as `none : Option ℚ`;
* a Python exception (`assert` failure, `KeyError`, unbound local) is
  modelled as `Except.error` with the corresponding message;
* jax arrays of shape (particles, dim) are `List (List ℚ)`;
* dictionaries keyed by output-channel name are association lists keyed
  by `Nat` channel ids.
-/

namespace LagrangeBench

deriving instance DecidableEq for Except

/-- A jax array of shape (num_particles, dim). -/
abbrev Mat := List (List ℚ)

/-- A dict mapping output-channel ids (e.g. acc/vel/pos) to arrays,
as returned by `model_fn` and as the `target` argument of `_mse`. -/
abbrev PredMap := List (Nat × Mat)

/-- `x.shape` of a (particles, dim) array: the row count together with the
row lengths (so equality of `matShape` is equality of jax shapes for
well-formed rectangular data). -/
def matShape (m : Mat) : Nat × List Nat := (m.length, m.map List.length)

/-- `LossConfig`: loss weights per output channel, as an association list
channel id ↦ weight.  Modelled from the spec: the `LossConfig` class itself
(`lagrangebench/utils`) is not under `src/`; the spec describes it as the
configuration of "weighted per-particle squared error" per output channel. -/
structure LossConfig where
  entries : List (Nat × ℚ)

/-- `loss_weight.nonzero`: the channels with a nonzero configured weight. -/
def LossConfig.nonzero (c : LossConfig) : List Nat :=
  (c.entries.filter (fun p => decide (p.2 ≠ 0))).map Prod.fst

/-- `loss_weight[t]`: the configured weight of channel `t` (0 if absent). -/
def LossConfig.get (c : LossConfig) (k : Nat) : ℚ :=
  ((c.entries.find? (fun p => decide (p.1 = k))).map Prod.snd).getD 0

/-- Modelled from the spec: `get_kinematic_mask` (`lagrangebench/utils`, not
under `src/`) marks the particles "whose motion is externally prescribed";
we keep the tag predicate `kin` abstract and map it over the type tags. -/
def getKinematicMask (kin : Nat → Bool) (particleType : List Nat) : List Bool :=
  particleType.map kin

/-- Division as jax performs it on floats: dividing by zero produces a
non-finite value (NaN for 0/0), modelled as `none`; no exception is raised. -/
def jdiv (a : ℚ) (n : Nat) : Option ℚ :=
  if n = 0 then none else some (a / n)

/-- The loss contribution of one channel in `_mse`:
`(loss_weight[t] * (pred[t] - target[t]) ** 2).sum(axis=-1)`,
a per-particle vector. -/
def channelLoss (w : ℚ) (pred target : Mat) : List ℚ :=
  List.zipWith (fun pr tr => w * ((List.zipWith (fun a b => (a - b) * (a - b)) pr tr).sum)) pred target

/-- The assert of `_mse`:
`assert all(target[k].shape == pred[k].shape for k in keys)`.
Missing target key raises `KeyError`; a shape mismatch fails the assert. -/
def mseShapeCheck (pred target : PredMap) : List Nat → Except String Unit
  | [] => .ok ()
  | k :: ks =>
    match target.lookup k with
    | none => .error "KeyError"
    | some tm =>
      if matShape tm = matShape ((pred.lookup k).getD []) then mseShapeCheck pred target ks
      else .error "AssertionError: target and pred shapes must match"

/-- The active channels of `_mse`:
`keys = list(set(loss_weight.nonzero) & set(pred.keys()))`. -/
def mseKeys (lossWeight : LossConfig) (pred : PredMap) : List Nat :=
  lossWeight.nonzero.filter (fun k => (pred.lookup k).isSome)

/-- `_mse` from `lagrangebench/train/trainer.py` (lines 36-60).
The model is the opaque external `model_fn`; `kin` is the kinematic-tag
predicate behind `get_kinematic_mask`.  Returns the loss (with `none`
standing for a non-finite value) and the auxiliary model state. -/
def mse {P S F : Type} (modelFn : P → S → F × List Nat → PredMap × S)
    (lossWeight : LossConfig) (kin : Nat → Bool)
    (params : P) (state : S) (features : F) (particleType : List Nat)
    (target : PredMap) : Except String (Option ℚ × S) :=
  let ms := modelFn params state (features, particleType)
  let pred := ms.1
  let keys := mseKeys lossWeight pred
  match mseShapeCheck pred target keys with
  | .error e => .error e
  | .ok () =>
    let nonKinematicMask := (getKinematicMask kin particleType).map (fun b => !b)
    let numNonKinematic := nonKinematicMask.count true
    let losses := keys.map (fun k =>
      channelLoss (lossWeight.get k) ((pred.lookup k).getD []) ((target.lookup k).getD []))
    let totalLoss := (List.range particleType.length).map
      (fun i => (losses.map (fun l => l.getD i 0)).sum)
    let maskedLoss := List.zipWith (fun b v => if b then v else 0) nonKinematicMask totalLoss
    .ok (jdiv maskedLoss.sum numNonKinematic, ms.2)

/-! ## `_update` (trainer.py lines 63-89)

The per-sample value-and-grad computation (`jax.value_and_grad(loss_fn)`,
vmapped with `in_axes=(None, None, 0, 0, 0)`) is the opaque oracle `vag`:
it receives the shared `params` and `state` plus one sample and returns
`((loss, new_state_leaves), grad_leaves)`.  Parameter, state and gradient
pytrees are flattened to `List ℚ` leaf vectors, so that
`jax.tree_map(lambda x: x.sum(axis=0), ...)` over the stacked batch outputs
is the pointwise sum of the per-sample vectors. -/

/-- Pointwise sum of a stack of leaf vectors: the batch-axis `sum(axis=0)`
applied by `_update` to the vmapped gradients and states. -/
def sumVecs : List (List ℚ) → List ℚ
  | [] => []
  | [v] => v
  | v :: vs => List.zipWith (· + ·) v (sumVecs vs)

/-- `_update` from `lagrangebench/train/trainer.py` (lines 63-89):
vmap the value-and-grad oracle over the batch with shared `params`/`state`,
sum gradients and auxiliary state over the batch axis, average the loss,
then apply the optimizer update (`optax.apply_updates` is the pointwise
addition of the update vector to the parameter vector). -/
def update {Smp O : Type}
    (vag : List ℚ → List ℚ → Smp → (ℚ × List ℚ) × List ℚ)
    (optUpdate : List ℚ → O → List ℚ → List ℚ × O)
    (params state : List ℚ) (batch : List Smp) (optState : O) :
    ℚ × List ℚ × List ℚ × O :=
  let results := batch.map (fun smp => vag params state smp)
  let grads := sumVecs (results.map (fun r => r.2))
  let state1 := sumVecs (results.map (fun r => r.1.2))
  let loss := (results.map (fun r => r.1.1)).sum / (batch.length : ℚ)
  let uo := optUpdate grads optState params
  (loss, List.zipWith (· + ·) params uo.1, state1, uo.2)

/-! ## Push-forward unrolling and gradient flow (trainer.py lines 277-286, 63-89)

The unroll loop applies `push_forward_vmap` (the model plus position
integration) `unroll_steps` times OUTSIDE of any gradient transformation,
and only the resulting arrays are passed as data arguments into
`jax.value_and_grad(loss_fn)`.  We model the scalar situation: one scalar
parameter `θ`, one scalar position, and forward-mode differentiation with
respect to `θ`.  `jax.value_and_grad` applied to a differentiable binary
function is modelled by its dual-number (value, derivative) lifting. -/

/-- A differentiable binary function `ℚ → ℚ → ℚ` with its two partial
derivatives: the semantic model of a jax-traceable function of
(parameters, position). -/
structure DiffFn where
  f : ℚ → ℚ → ℚ
  d1 : ℚ → ℚ → ℚ
  d2 : ℚ → ℚ → ℚ

/-- Dual number: value and derivative with respect to the scalar parameter. -/
abbrev Dual := ℚ × ℚ

/-- Forward-mode (dual-number) evaluation of a differentiable function:
how jax propagates tangents through one application. -/
def DiffFn.fwd (F : DiffFn) (a b : Dual) : Dual :=
  (F.f a.1 b.1, F.d1 a.1 b.1 * a.2 + F.d2 a.1 b.1 * b.2)

/-- The unroll loop of `_train` (lines 277-286): `unroll_steps` applications
of the model at value level (no gradient transformation is active there),
each feeding the next. -/
def unrollPos (model : DiffFn) : Nat → ℚ → ℚ → ℚ
  | 0, _, x0 => x0
  | n + 1, θ, x0 => model.f θ (unrollPos model n θ x0)

/-- The gradient actually computed by one training step with `n` scheduled
push-forward steps: the unroll runs at value level, and
`jax.value_and_grad(loss_fn)` then differentiates the loss `L` with respect
to `params` only — the unrolled position enters as a data argument, i.e. a
dual with zero tangent. -/
def pushForwardGrad (model L : DiffFn) (n : Nat) (θ x0 : ℚ) : ℚ :=
  (L.fwd (θ, 1) (unrollPos model n θ x0, 0)).2

/-- Full backpropagation-through-time for contrast: tangents are threaded
through every unroll application.  The trainer does NOT compute this. -/
def bpttGrad (model L : DiffFn) : Nat → ℚ → ℚ → ℚ → ℚ
  | 0, θ, x0, _ => (L.fwd (θ, 1) (x0, 0)).2
  | n + 1, θ, x0, dx0 =>
    (L.fwd (θ, 1) (Nat.rec (x0, dx0) (fun _ x => model.fwd (θ, 1) x) (n + 1))).2

/-! ## The training loop state machine (trainer.py lines 262-356)

The loop `while step < step_max: for raw_batch in loader_train: ...` with
the overflow/reallocation branch (lines 288-302), the optimizer update,
the step increment and the `break` at `step == step_max` (lines 352-354).

Per batch, the embedding keeps exactly what the overflow logic inspects:
a batch id `bid` (identifying the raw data) and the per-sample neighbor
capacities `reqCaps` that the preprocess/unroll phase turns out to need
(the `did_buffer_overflow` flag of a sample is set iff its requirement exceeds
the current shared buffer capacity).  `allocCap` models the capacity that
`case.allocate` (not under `src/`; per the spec it rebuilds the buffer
with headroom ≥ 1 over the true requirement of the sample) chooses for one
sample.  `updParams` is the opaque effect of `_update` on the learnable
triple (params, model state, optimizer state), abstracted as type `P`. -/

/-- A batch as seen by the overflow logic of the training loop. -/
structure Batch where
  bid : Nat
  reqCaps : List Nat
deriving DecidableEq

/-- Observable events of the training loop, recorded in program order:
a reallocation (with the batch, the chosen sample index and the new
capacity) or an optimizer update (with the batch consumed and the step
counter at which it ran). -/
inductive Event where
  | realloc (bid ind newCap : Nat)
  | upd (bid atStep : Nat)
deriving DecidableEq

/-- The loop state: the learnable triple `params` (params, model state,
optimizer state abstracted together), the step counter, the shared
neighbor-buffer capacity, and the event trace. -/
structure TrainState (P : Type) where
  params : P
  step : Nat
  cap : Nat
  events : List Event
deriving DecidableEq

/-- Processing of one batch (trainer.py lines 263-354): if any sample
overflows, pick `jnp.argmax(did_buffer_overflow)` — the FIRST sample whose
flag is set — reallocate from that sample alone, and `continue` (no update,
no step increment).  Otherwise run the optimizer update, increment `step`,
and signal `break` iff `step == step_max`.  Returns the new state and the
break flag. -/
def stepBatch {P : Type} (allocCap : Nat → Nat) (updParams : P → Nat → P)
    (stepMax : Nat) (s : TrainState P) (b : Batch) : TrainState P × Bool :=
  if b.reqCaps.any (fun r => decide (s.cap < r)) then
    let ind := b.reqCaps.findIdx (fun r => decide (s.cap < r))
    let newCap := allocCap (b.reqCaps.getD ind 0)
    ({ params := s.params, step := s.step, cap := newCap,
       events := s.events ++ [.realloc b.bid ind newCap] }, false)
  else
    let s1 : TrainState P :=
      { params := updParams s.params b.bid, step := s.step + 1, cap := s.cap,
        events := s.events ++ [.upd b.bid s.step] }
    (s1, decide (s1.step = stepMax))

/-- One pass of `for raw_batch in loader_train` over the (deterministically
ordered) list of batches; stops early when `break` fires. -/
def runEpoch {P : Type} (allocCap : Nat → Nat) (updParams : P → Nat → P)
    (stepMax : Nat) : TrainState P → List Batch → TrainState P × Bool
  | s, [] => (s, false)
  | s, b :: rest =>
    let sb := stepBatch allocCap updParams stepMax s b
    if sb.2 then (sb.1, true) else runEpoch allocCap updParams stepMax sb.1 rest

/-- The outer `while step < step_max` loop, fuel-bounded on the number of
epoch passes (`none` = the fuel ran out, standing for a run that has not
terminated yet). -/
def runTrainer {P : Type} (allocCap : Nat → Nat) (updParams : P → Nat → P)
    (stepMax : Nat) (batches : List Batch) :
    Nat → TrainState P → Option (TrainState P)
  | 0, s => if s.step < stepMax then none else some s
  | fuel + 1, s =>
    if s.step < stepMax then
      let eb := runEpoch allocCap updParams stepMax s batches
      if eb.2 then some eb.1 else runTrainer allocCap updParams stepMax batches fuel eb.1
    else some s

/-! ## Initial params/state/optimizer resolution (trainer.py lines 232-246) -/

/-- A saved checkpoint as `load_haiku` returns it:
`(params, state, opt_state, step)`. -/
structure Checkpoint (P S O : Type) where
  params : P
  state : S
  optState : O
  step : Nat

/-- The init-resolution logic of `_train` (lines 232-246):
`if params is not None: (state = {} if state is None)`;
`elif load_checkpoint: params, state, opt_state, step = load_haiku(...)`;
`else: params, state = model.init(...)`;
then `if load_checkpoint is None: opt_state = opt_init(params); step = 0`.
When both `params` and `load_checkpoint` are supplied, `opt_state` and
`step` are never assigned and Python raises an unbound-local error at
first use. -/
def initResolve {P S O : Type} (emptyState : S) (modelInit : P × S) (optInit : P → O)
    (paramsOpt : Option P) (stateOpt : Option S)
    (loadCkpt : Option (Checkpoint P S O)) :
    Except String (P × S × O × Nat) :=
  match paramsOpt with
  | some p =>
    let st := stateOpt.getD emptyState
    match loadCkpt with
    | none => .ok (p, st, optInit p, 0)
    | some _ => .error "UnboundLocalError: opt_state referenced before assignment"
  | none =>
    match loadCkpt with
    | some c => .ok (c.params, c.state, c.optState, c.step)
    | none => .ok (modelInit.1, modelInit.2, optInit modelInit.1, 0)

/-! ## Eager configuration checks at Trainer start (trainer.py lines 199-205) -/

/-- The configuration values the two eager asserts inspect (Python ints). -/
structure TrainConfig where
  nRolloutSteps : Int
  subseqLength : Int
  inputSeqLength : Int
  evalNTrajs : Int
  lenLoaderEval : Int

/-- The two asserts executed before the training loop (lines 199-205), in
program order: the rollout-horizon check, then the `eval_n_trajs` check.
The third configuration error of the spec — mismatched prediction/target
shapes — is NOT here: it is the assert inside `_mse` (see `mseShapeCheck`),
which only runs when the loss is first evaluated. -/
def trainerStartChecks (c : TrainConfig) : Except String Unit :=
  if c.nRolloutSteps ≤ c.subseqLength - c.inputSeqLength then
    if c.evalNTrajs ≤ c.lenLoaderEval then .ok ()
    else .error "eval_n_trajs must be <= len(loader_valid)"
  else .error "If you want to evaluate the loss on more than the ground truth trajectory length, then use the --eval_n_more_steps argument."

/-! ## The windowed training dataset (gns_jax/data.py) -/

/-- `np.cumsum` on a list of naturals. -/
def cumsum : List Nat → List Nat
  | [] => []
  | x :: xs => x :: (cumsum xs).map (x + ·)

/-- `bisect.bisect(a, x)` on a sorted list: the number of elements `≤ x`. -/
def bisectRight (a : List Nat) (x : Nat) : Nat :=
  a.countP (fun v => decide (v ≤ x))

/-- The training-mode `H5Dataset` (`is_rollout=False`) of `gns_jax/data.py`:
`numTrajs` trajectories of `seqLength` frames each, window length
`inputSeqLength`; `pos t f` is frame `f` of trajectory `t` (an array of
particle positions, kept abstract) and `ptypes t` the per-trajectory
particle types. -/
structure H5Train (α : Type) where
  numTrajs : Nat
  seqLength : Nat
  inputSeqLength : Nat
  pos : Nat → Nat → α
  ptypes : Nat → List Nat

/-- `keylens = [samples_per_traj for _ in traj_keys]` with
`samples_per_traj = sequence_length - input_sequence_length`. -/
def H5Train.keylens {α : Type} (d : H5Train α) : List Nat :=
  List.replicate d.numTrajs (d.seqLength - d.inputSeqLength)

/-- `self._keylen_cumulative = np.cumsum(keylens).tolist()`. -/
def H5Train.keylenCumulative {α : Type} (d : H5Train α) : List Nat :=
  cumsum d.keylens

/-- `self.num_samples = sum(keylens)` — the dataset `__len__`. -/
def H5Train.numSamples {α : Type} (d : H5Train α) : Nat :=
  d.keylens.sum

/-- `traj_idx = bisect.bisect(self._keylen_cumulative, idx)` (data.py line 88). -/
def H5Train.trajIdx {α : Type} (d : H5Train α) (idx : Nat) : Nat :=
  bisectRight d.keylenCumulative idx

/-- `el_idx = idx` and, when `traj_idx != 0`,
`el_idx = idx - self._keylen_cumulative[traj_idx - 1]` (data.py lines 90-92). -/
def H5Train.elIdx {α : Type} (d : H5Train α) (idx : Nat) : Nat :=
  if d.trajIdx idx = 0 then idx
  else idx - d.keylenCumulative.getD (d.trajIdx idx - 1) 0

/-- `H5Dataset.get_window` (data.py lines 86-111): locate the trajectory by
bisection over the cumulative key lengths, compute the in-trajectory offset,
and return the `input_sequence_length` consecutive frames
`traj_pos[el_idx : el_idx + W]` starting there, the particle types, and the
next frame `traj_pos[el_idx + W]` as target.  (The transpose is a layout
change of the abstract frames and is not modelled.) -/
def H5Train.getWindow {α : Type} (d : H5Train α) (idx : Nat) :
    List α × List Nat × α :=
  ((List.range d.inputSeqLength).map (fun i => d.pos (d.trajIdx idx) (d.elIdx idx + i)),
   d.ptypes (d.trajIdx idx),
   d.pos (d.trajIdx idx) (d.elIdx idx + d.inputSeqLength))

/-! ## General list helper lemmas -/

theorem sum_range_map (f : Nat → ℚ) (n : Nat) :
    ((List.range n).map f).sum = ∑ i in Finset.range n, f i := by
  induction n with
  | zero => simp
  | succ n ih =>
    rw [List.range_succ, List.map_append, List.sum_append, Finset.sum_range_succ, ih]
    simp

theorem getD_range_map {α : Type} (f : Nat → α) (d : α) {n i : Nat} (h : i < n) :
    (((List.range n).map f).getD i d) = f i := by
  rw [List.getD_eq_getElem?_getD, List.getElem?_map, List.getElem?_range h]
  rfl

theorem getD_map {α β : Type} (f : α → β) (l : List α) (d0 : α) (d : β) {i : Nat}
    (h : i < l.length) :
    ((l.map f).getD i d) = f (l.getD i d0) := by
  rw [List.getD_eq_getElem?_getD, List.getElem?_map,
    List.getElem?_eq_getElem h, List.getD_eq_getElem?_getD, List.getElem?_eq_getElem h]
  rfl

theorem zipWith_getD {α β γ : Type} (f : α → β → γ) (as : List α) (bs : List β)
    (da : α) (db : β) (d : γ) :
    ∀ i : Nat, i < as.length → i < bs.length →
      ((List.zipWith f as bs).getD i d) = f (as.getD i da) (bs.getD i db) := by
  induction as generalizing bs with
  | nil => intro i h _; simp at h
  | cons a as ih =>
    intro i h1 h2
    cases bs with
    | nil => simp at h2
    | cons b bs =>
      cases i with
      | zero => rfl
      | succ i =>
        simp only [List.zipWith_cons_cons, List.getD_cons_succ]
        exact ih bs i (by simpa using h1) (by simpa using h2)

theorem zipWith_mask_sum (p : List Bool) :
    ∀ v : List ℚ, p.length = v.length →
      (List.zipWith (fun b x => if b then x else 0) p v).sum =
        ∑ i in Finset.range p.length, if p.getD i false then v.getD i 0 else 0 := by
  induction p with
  | nil => intro v _; simp
  | cons b p ih =>
    intro v hv
    cases v with
    | nil => simp at hv
    | cons x v =>
      simp only [List.zipWith_cons_cons, List.sum_cons, List.length_cons]
      rw [Finset.sum_range_succ']
      simp only [List.getD_cons_succ, List.getD_cons_zero]
      rw [ih v (by simpa using hv)]
      ring

theorem sum_finset_listmap {α : Type} (n : Nat) (l : List α) (f : Nat → α → ℚ) :
    ∑ i in Finset.range n, (l.map (f i)).sum =
      (l.map (fun k => ∑ i in Finset.range n, f i k)).sum := by
  induction l with
  | nil => simp
  | cons a l ih =>
    simp only [List.map_cons, List.sum_cons]
    rw [Finset.sum_add_distrib, ih]

theorem count_true_map_not_map (kin : Nat → Bool) (l : List Nat) :
    (((l.map kin).map (fun b => !b)).count true) = l.countP (fun t => !(kin t)) := by
  rw [List.map_map, List.count_eq_countP, List.countP_map]
  apply List.countP_congr
  intro t _
  simp [Function.comp]

/-! ## Claim theorems -/

/-- C4: for every scheduled number of unroll steps `n`, the push-forward
applications run outside of gradient computation (`unrollPos` iterates the
model at value level), and the gradient used for the update is exactly the
partial derivative of the final loss application with respect to the
parameters, the unrolled position entering as a fixed (zero-tangent) input —
no gradient accumulation across unroll steps. -/
theorem pushforward_grad_only_final_application (model L : DiffFn) (n : Nat) (θ x0 : ℚ) :
    pushForwardGrad model L n θ x0 = L.d1 θ (unrollPos model n θ x0) := by
  simp [pushForwardGrad, DiffFn.fwd]

/-- C6: in one optimizer step over a batch, the loss/gradient/state of each sample
is computed independently from the shared `params` and `state`; the gradients
and the auxiliary state are summed element-wise across the batch while the
loss is averaged, and only then is the optimizer update applied to obtain the
new parameters. -/
theorem update_batch_aggregation {Smp O : Type}
    (vag : List ℚ → List ℚ → Smp → (ℚ × List ℚ) × List ℚ)
    (optUpdate : List ℚ → O → List ℚ → List ℚ × O)
    (ps st : List ℚ) (batch : List Smp) (os : O) :
    update vag optUpdate ps st batch os =
      ((batch.map (fun b => (vag ps st b).1.1)).sum / (batch.length : ℚ),
       List.zipWith (· + ·) ps
         (optUpdate (sumVecs (batch.map (fun b => (vag ps st b).2))) os ps).1,
       sumVecs (batch.map (fun b => (vag ps st b).1.2)),
       (optUpdate (sumVecs (batch.map (fun b => (vag ps st b).2))) os ps).2) := by
  simp [update, List.map_map, Function.comp_def]

/-- C10: with caller-supplied `params` and no `load_checkpoint`, the optimizer
state is freshly initialized from those params and the step counter starts at
0, with `state` defaulting to the empty mapping when absent; and only the
`load_checkpoint` path restores params, state, optimizer state and step
together from the saved checkpoint. -/
theorem init_resolution_fresh_optimizer {P S O : Type} (emptyState : S)
    (modelInit : P × S) (optInit : P → O) (p : P) (st : Option S)
    (c : Checkpoint P S O) :
    initResolve emptyState modelInit optInit (some p) st none =
        .ok (p, st.getD emptyState, optInit p, 0) ∧
      initResolve emptyState modelInit optInit none st (some c) =
        .ok (c.params, c.state, c.optState, c.step) := by
  exact ⟨rfl, rfl⟩

/-! ## Trainer-loop lemmas -/

theorem findIdx_getD_pred {α : Type} (p : α → Bool) (d : α) :
    ∀ l : List α, l.any p = true → p (l.getD (l.findIdx p) d) = true := by
  intro l
  induction l with
  | nil => intro h; simp at h
  | cons a l ih =>
    intro h
    by_cases hp : p a = true
    · simp [List.findIdx_cons, hp]
    · have hp2 : p a = false := by simpa using hp
      have hl : l.any p = true := by simpa [hp2] using h
      simp only [List.findIdx_cons, hp2, cond_false, List.getD_cons_succ]
      exact ih hl

theorem runEpoch_nil {P : Type} (a : Nat → Nat) (u : P → Nat → P) (M : Nat)
    (s : TrainState P) : runEpoch a u M s [] = (s, false) := rfl

theorem runEpoch_cons {P : Type} (a : Nat → Nat) (u : P → Nat → P) (M : Nat)
    (s : TrainState P) (b : Batch) (rest : List Batch) :
    runEpoch a u M s (b :: rest) =
      if (stepBatch a u M s b).2 then ((stepBatch a u M s b).1, true)
      else runEpoch a u M (stepBatch a u M s b).1 rest := rfl

theorem runTrainer_zero {P : Type} (a : Nat → Nat) (u : P → Nat → P) (M : Nat)
    (bs : List Batch) (s : TrainState P) :
    runTrainer a u M bs 0 s = if s.step < M then none else some s := rfl

theorem runTrainer_succ {P : Type} (a : Nat → Nat) (u : P → Nat → P) (M : Nat)
    (bs : List Batch) (fuel : Nat) (s : TrainState P) :
    runTrainer a u M bs (fuel + 1) s =
      if s.step < M then
        if (runEpoch a u M s bs).2 then some (runEpoch a u M s bs).1
        else runTrainer a u M bs fuel (runEpoch a u M s bs).1
      else some s := rfl

/-- All optimizer-update events in a trace ran at a step strictly below `M`. -/
def updEventsBelow (M : Nat) (evs : List Event) : Prop :=
  ∀ b t, Event.upd b t ∈ evs → t < M

theorem stepBatch_overflow_eq {P : Type} (a : Nat → Nat) (u : P → Nat → P) (M : Nat)
    (s : TrainState P) (b : Batch)
    (hov : b.reqCaps.any (fun r => decide (s.cap < r)) = true) :
    stepBatch a u M s b =
      ({ params := s.params, step := s.step,
         cap := a (b.reqCaps.getD (b.reqCaps.findIdx (fun r => decide (s.cap < r))) 0),
         events := s.events ++ [.realloc b.bid
           (b.reqCaps.findIdx (fun r => decide (s.cap < r)))
           (a (b.reqCaps.getD (b.reqCaps.findIdx (fun r => decide (s.cap < r))) 0))] },
       false) := by
  simp [stepBatch, hov]

theorem stepBatch_update_eq {P : Type} (a : Nat → Nat) (u : P → Nat → P) (M : Nat)
    (s : TrainState P) (b : Batch)
    (hov : b.reqCaps.any (fun r => decide (s.cap < r)) = false) :
    stepBatch a u M s b =
      ({ params := u s.params b.bid, step := s.step + 1, cap := s.cap,
         events := s.events ++ [.upd b.bid s.step] }, decide (s.step + 1 = M)) := by
  simp [stepBatch, hov]

theorem stepBatch_inv {P : Type} (a : Nat → Nat) (u : P → Nat → P) (M : Nat)
    (s : TrainState P) (b : Batch) (hs : s.step < M) (he : updEventsBelow M s.events) :
    updEventsBelow M (stepBatch a u M s b).1.events ∧
      ((stepBatch a u M s b).2 = true → (stepBatch a u M s b).1.step = M) ∧
      ((stepBatch a u M s b).2 = false → (stepBatch a u M s b).1.step < M) := by
  by_cases hov : b.reqCaps.any (fun r => decide (s.cap < r)) = true
  · rw [stepBatch_overflow_eq a u M s b hov]
    refine ⟨?_, by simp, fun _ => hs⟩
    intro bb t ht
    rcases List.mem_append.1 ht with h1 | h1
    · exact he bb t h1
    · simp at h1
  · have hov2 : b.reqCaps.any (fun r => decide (s.cap < r)) = false := by
      simpa using hov
    rw [stepBatch_update_eq a u M s b hov2]
    refine ⟨?_, ?_, ?_⟩
    · intro bb t ht
      rcases List.mem_append.1 ht with h1 | h1
      · exact he bb t h1
      · simp only [List.mem_singleton, Event.upd.injEq] at h1
        exact h1.2 ▸ hs
    · intro h
      simpa using h
    · intro h
      have h2 : ¬(s.step + 1 = M) := by simpa using h
      show s.step + 1 < M
      omega

theorem runEpoch_inv {P : Type} (a : Nat → Nat) (u : P → Nat → P) (M : Nat) :
    ∀ (bs : List Batch) (s : TrainState P), s.step < M → updEventsBelow M s.events →
      updEventsBelow M (runEpoch a u M s bs).1.events ∧
        ((runEpoch a u M s bs).2 = true → (runEpoch a u M s bs).1.step = M) ∧
        ((runEpoch a u M s bs).2 = false → (runEpoch a u M s bs).1.step < M) := by
  intro bs
  induction bs with
  | nil =>
    intro s hs he
    rw [runEpoch_nil]
    exact ⟨he, by simp, fun _ => hs⟩
  | cons b rest ih =>
    intro s hs he
    obtain ⟨h1, h2, h3⟩ := stepBatch_inv a u M s b hs he
    rw [runEpoch_cons]
    by_cases hbr : (stepBatch a u M s b).2 = true
    · simp only [hbr, if_true]
      exact ⟨h1, fun _ => h2 hbr, by simp⟩
    · have hbr2 : (stepBatch a u M s b).2 = false := by simpa using hbr
      simp only [hbr2, Bool.false_eq_true, if_false]
      exact ih (stepBatch a u M s b).1 (h3 hbr2) h1

/-- C8: when started with `step ≤ step_max`, the training loop terminates
exactly at `step = step_max`: every terminated run (the fuel-bounded
embedding returning a final state) returns the final
params/state/optimizer-state with `step = step_max`, and no optimizer
update in its trace executed at a step `≥ step_max`. -/
theorem trainer_loop_stops_at_step_max {P : Type} (a : Nat → Nat) (u : P → Nat → P)
    (M : Nat) (bs : List Batch) (fuel : Nat) (s0 s1 : TrainState P)
    (h0 : s0.step ≤ M) (he : updEventsBelow M s0.events)
    (hr : runTrainer a u M bs fuel s0 = some s1) :
    s1.step = M ∧ updEventsBelow M s1.events := by
  induction fuel generalizing s0 with
  | zero =>
    rw [runTrainer_zero] at hr
    by_cases hlt : s0.step < M
    · simp [hlt] at hr
    · simp only [hlt, if_false, Option.some.injEq] at hr
      subst hr
      exact ⟨by omega, he⟩
  | succ fuel ih =>
    rw [runTrainer_succ] at hr
    by_cases hlt : s0.step < M
    · simp only [hlt, if_true] at hr
      obtain ⟨h1, h2, h3⟩ := runEpoch_inv a u M bs s0 hlt he
      by_cases hbr : (runEpoch a u M s0 bs).2 = true
      · simp only [hbr, if_true, Option.some.injEq] at hr
        subst hr
        exact ⟨h2 hbr, h1⟩
      · have hbr2 : (runEpoch a u M s0 bs).2 = false := by simpa using hbr
        simp only [hbr2, Bool.false_eq_true, if_false] at hr
        exact ih (runEpoch a u M s0 bs).1 (Nat.le_of_lt (h3 hbr2)) h1 hr
    · simp only [hlt, if_false, Option.some.injEq] at hr
      subst hr
      exact ⟨by omega, he⟩

/-- Witness for C8: a concrete two-batch run (the first batch initially
overflows) terminates with `step = step_max = 2` and both recorded updates
ran at steps 0 and 1, below `step_max`. -/
theorem trainer_loop_stops_at_step_max_witness :
    (⟨[0, 1], 2, 5, [.realloc 0 0 5, .upd 1 0, .upd 0 1]⟩ :
        TrainState (List Nat)).step = 2 ∧
      updEventsBelow 2 [.realloc 0 0 5, .upd 1 0, .upd 0 1] :=
  trainer_loop_stops_at_step_max id (fun l b => b :: l) 2 [⟨0, [5]⟩, ⟨1, [1]⟩] 10
    ⟨[], 0, 4, []⟩ ⟨[0, 1], 2, 5, [.realloc 0 0 5, .upd 1 0, .upd 0 1]⟩
    (by decide) (by intro b t ht; simp at ht) (by decide)

/-- C1 counterexample: a concrete run refuting "the training step is retried
from the same batch of data".  With `step_max = 1`, capacity 4 and batches
0 (one sample needing capacity 5) and 1 (one sample needing capacity 1),
batch 0 overflows, the buffer is reallocated to capacity 5, and the loop
`continue`s: the only optimizer update consumed batch 1 — the overflowing
batch 0 was never retried (no `upd` event of batch 0 occurs in the trace and
the parameters record only batch 1). -/
theorem overflow_retry_uses_next_batch_counterexample :
    runTrainer (P := List Nat) id (fun l b => b :: l) 1 [⟨0, [5]⟩, ⟨1, [1]⟩] 10
        ⟨[], 0, 4, []⟩ =
      some ⟨[1], 1, 5, [.realloc 0 0 5, .upd 1 0]⟩ ∧
      Event.upd 0 0 ∉ [Event.realloc 0 0 5, Event.upd 1 0] := by
  exact ⟨by decide, by decide⟩

/-- C1 (amended): if any sample in the batch reports a neighbor-buffer
overflow after the preprocess/unroll phase, the optimizer step for that
batch is aborted — parameters, model state and optimizer state (the
learnable triple `params`) and the step counter are left unchanged, no
update is applied — the shared buffer is reallocated, and the loop
continues with the NEXT batch of the epoch (the same data is only seen
again on a later epoch), without advancing the step counter. -/
theorem overflow_aborts_update_and_skips_batch {P : Type} (a : Nat → Nat)
    (u : P → Nat → P) (M : Nat) (s : TrainState P) (b : Batch) (rest : List Batch)
    (hov : b.reqCaps.any (fun r => decide (s.cap < r)) = true) :
    runEpoch a u M s (b :: rest) =
      runEpoch a u M
        { params := s.params, step := s.step,
          cap := a (b.reqCaps.getD (b.reqCaps.findIdx (fun r => decide (s.cap < r))) 0),
          events := s.events ++ [.realloc b.bid
            (b.reqCaps.findIdx (fun r => decide (s.cap < r)))
            (a (b.reqCaps.getD (b.reqCaps.findIdx (fun r => decide (s.cap < r))) 0))] }
        rest := by
  rw [runEpoch_cons, stepBatch_overflow_eq a u M s b hov]
  simp

/-- Witness for the amended C1: on a concrete overflowing batch the epoch
run equals the run on the remaining batches from the realloc-only state. -/
theorem overflow_aborts_update_and_skips_batch_witness :
    runEpoch (P := List Nat) id (fun l b => b :: l) 1
        ⟨[], 0, 4, []⟩ (⟨0, [5]⟩ :: [⟨1, [1]⟩]) =
      runEpoch id (fun l b => b :: l) 1
        ⟨[], 0, 5, [.realloc 0 0 5]⟩ [⟨1, [1]⟩] := by
  have h := overflow_aborts_update_and_skips_batch (P := List Nat) id
    (fun l b => b :: l) 1 ⟨[], 0, 4, []⟩ ⟨0, [5]⟩ [⟨1, [1]⟩] (by decide)
  simpa using h

/-- C3 counterexample: with batch sample requirements `[5, 9]`, current
capacity 4 and the spec-permitted headroom factor 1.0 (`allocCap = id`), the
reallocated capacity is 5 — the requirement of the FIRST overflowing sample,
selected by `jnp.argmax(did_buffer_overflow)` — not the maximum requirement
9 across the batch, and the second sample does not fit afterwards. -/
theorem realloc_not_max_capacity_counterexample :
    (stepBatch (P := Unit) id (fun _ _ => ()) 5 ⟨(), 0, 4, []⟩ ⟨0, [5, 9]⟩).1.cap = 5 ∧
      (5 : Nat) ≠ [5, 9].foldr max 0 ∧
      ¬(∀ r ∈ [5, 9],
        r ≤ (stepBatch (P := Unit) id (fun _ _ => ()) 5 ⟨(), 0, 4, []⟩ ⟨0, [5, 9]⟩).1.cap) := by
  decide

/-- C3 (amended): when an overflow triggers reallocation, the new shared
buffer capacity is the capacity `case.allocate` chooses for the FIRST sample
whose overflow flag is set (`jnp.argmax` over the boolean flags); that
requirement of that sample strictly exceeded the old capacity, and — provided the
allocation includes its spec-mandated headroom `≥ 1` — that one sample fits
in the new buffer.  Samples after it may still not fit; they are handled by
later reallocation rounds. -/
theorem realloc_uses_first_overflowing_sample {P : Type} (a : Nat → Nat)
    (u : P → Nat → P) (M : Nat) (s : TrainState P) (b : Batch)
    (hov : b.reqCaps.any (fun r => decide (s.cap < r)) = true)
    (ha : ∀ r, r ≤ a r) :
    (stepBatch a u M s b).1.cap =
        a (b.reqCaps.getD (b.reqCaps.findIdx (fun r => decide (s.cap < r))) 0) ∧
      s.cap < b.reqCaps.getD (b.reqCaps.findIdx (fun r => decide (s.cap < r))) 0 ∧
      b.reqCaps.getD (b.reqCaps.findIdx (fun r => decide (s.cap < r))) 0 ≤
        (stepBatch a u M s b).1.cap := by
  have hfi := findIdx_getD_pred (fun r => decide (s.cap < r)) 0 b.reqCaps hov
  have hlt : s.cap < b.reqCaps.getD (b.reqCaps.findIdx (fun r => decide (s.cap < r))) 0 :=
    of_decide_eq_true hfi
  rw [stepBatch_overflow_eq a u M s b hov]
  exact ⟨rfl, hlt, ha _⟩

/-- Witness for the amended C3: on the concrete batch `[5, 9]` with capacity
4 the new capacity is `allocCap 5`, the first overflowing requirement is 5,
and that sample fits. -/
theorem realloc_uses_first_overflowing_sample_witness :
    (stepBatch (P := Unit) id (fun _ _ => ()) 5 ⟨(), 0, 4, []⟩ ⟨0, [5, 9]⟩).1.cap =
        id ([5, 9].getD ([5, 9].findIdx (fun r => decide (4 < r))) 0) ∧
      4 < [5, 9].getD ([5, 9].findIdx (fun r => decide (4 < r))) 0 ∧
      [5, 9].getD ([5, 9].findIdx (fun r => decide (4 < r))) 0 ≤
        (stepBatch (P := Unit) id (fun _ _ => ()) 5 ⟨(), 0, 4, []⟩ ⟨0, [5, 9]⟩).1.cap :=
  realloc_uses_first_overflowing_sample id (fun _ _ => ()) 5 ⟨(), 0, 4, []⟩ ⟨0, [5, 9]⟩
    (by decide) (fun r => Nat.le_refl r)

/-! ## Concrete fixtures for loss-function counterexamples and witnesses -/

/-- A concrete opaque model: predicts channel 0 as a fixed 2-particle,
2-dimensional array. -/
def cModelFn : Unit → Unit → Unit × List Nat → PredMap × Unit :=
  fun _ _ _ => ([(0, [[1, 2], [3, 4]])], ())

/-- A concrete loss configuration: channel 0 with weight 1. -/
def cLossConfig : LossConfig := ⟨[(0, 1)]⟩

/-- C7 counterexample: a configuration whose prediction/target shapes are
mismatched for the active loss channel passes the Trainer-start checks
(`trainerStartChecks` returns `ok`, so training begins), and the mismatch
only raises once the loss is first evaluated inside the first training
step — refuting that all three configuration errors are checked eagerly at
Trainer start before any training step executes. -/
theorem shape_check_not_at_start_counterexample :
    trainerStartChecks ⟨1, 10, 6, 1, 5⟩ = .ok () ∧
      mse cModelFn cLossConfig (fun t => decide (t = 1)) () () () [0, 0]
          [(0, [[1, 1], [3, 3], [5, 5]])] =
        .error "AssertionError: target and pred shapes must match" := by
  exact ⟨rfl, by decide⟩

/-- C7 (amended): the two eager checks — rollout horizon within the
available ground truth, and `eval_n_trajs` within the evaluation loader —
fail fast at Trainer start with their descriptive messages; the
prediction/target shape check for active loss channels instead raises at
the first evaluation of the loss, inside the first training step. -/
theorem config_checks_eager_shape_check_at_loss {P S F : Type} (c : TrainConfig)
    (modelFn : P → S → F × List Nat → PredMap × S) (lw : LossConfig)
    (kin : Nat → Bool) (p : P) (st : S) (f : F) (pt : List Nat) (tgt : PredMap)
    (e : String) :
    (c.subseqLength - c.inputSeqLength < c.nRolloutSteps →
      trainerStartChecks c = .error "If you want to evaluate the loss on more than the ground truth trajectory length, then use the --eval_n_more_steps argument.") ∧
    (c.nRolloutSteps ≤ c.subseqLength - c.inputSeqLength →
      c.lenLoaderEval < c.evalNTrajs →
      trainerStartChecks c = .error "eval_n_trajs must be <= len(loader_valid)") ∧
    (mseShapeCheck (modelFn p st (f, pt)).1 tgt
        (mseKeys lw (modelFn p st (f, pt)).1) = .error e →
      mse modelFn lw kin p st f pt tgt = .error e) := by
  refine ⟨?_, ?_, ?_⟩
  · intro h
    have h2 : ¬(c.nRolloutSteps ≤ c.subseqLength - c.inputSeqLength) := by omega
    simp [trainerStartChecks, h2]
  · intro h1 h2
    have h3 : ¬(c.evalNTrajs ≤ c.lenLoaderEval) := by omega
    simp [trainerStartChecks, h1, h3]
  · intro h
    simp only [mse]
    rw [h]

/-- Witness for the amended C7: each of the three failure modes observed on
a concrete configuration. -/
theorem config_checks_eager_shape_check_at_loss_witness :
    trainerStartChecks ⟨5, 10, 6, 1, 5⟩ = .error "If you want to evaluate the loss on more than the ground truth trajectory length, then use the --eval_n_more_steps argument." ∧
      trainerStartChecks ⟨1, 10, 6, 9, 5⟩ = .error "eval_n_trajs must be <= len(loader_valid)" ∧
      mse cModelFn cLossConfig (fun t => decide (t = 1)) () () () [0, 0]
          [(1, [[1, 1], [3, 3]])] = .error "KeyError" :=
  ⟨(config_checks_eager_shape_check_at_loss ⟨5, 10, 6, 1, 5⟩ cModelFn cLossConfig
      (fun t => decide (t = 1)) () () () [0, 0] [] "KeyError").1 (by decide),
   (config_checks_eager_shape_check_at_loss ⟨1, 10, 6, 9, 5⟩ cModelFn cLossConfig
      (fun t => decide (t = 1)) () () () [0, 0] [] "KeyError").2.1 (by decide) (by decide),
   (config_checks_eager_shape_check_at_loss ⟨1, 10, 6, 1, 5⟩ cModelFn cLossConfig
      (fun t => decide (t = 1)) () () () [0, 0] [(1, [[1, 1], [3, 3]])] "KeyError").2.2
     (by decide)⟩

/-- C2 counterexample: on a batch sample in which every particle is
kinematic (both particles carry the kinematic tag) and all shapes match,
the loss computation returns `.ok` — no error is raised or propagated — and
the loss value is `none`, i.e. the non-finite NaN produced by the unguarded
division `total_loss.sum() / num_non_kinematic` with a zero denominator.
This refutes the claim that a fatal error is raised instead of silently
returning NaN. -/
theorem all_kinematic_loss_returns_nan_counterexample :
    mse cModelFn cLossConfig (fun t => decide (t = 1)) () () () [1, 1]
        [(0, [[1, 1], [3, 3]])] = .ok (none, ()) := by
  decide

/-- C2 (amended): if the loss is computed on a batch sample in which every
particle is kinematic (and the shape assert passes), the division by the
zero non-kinematic count is not guarded: the computation silently returns
the non-finite value (NaN), raising no error. -/
theorem all_kinematic_loss_is_nan {P S F : Type}
    (modelFn : P → S → F × List Nat → PredMap × S) (lw : LossConfig)
    (kin : Nat → Bool) (p : P) (st : S) (f : F) (pt : List Nat) (tgt : PredMap)
    (hok : mseShapeCheck (modelFn p st (f, pt)).1 tgt
      (mseKeys lw (modelFn p st (f, pt)).1) = .ok ())
    (hkin : ∀ t ∈ pt, kin t = true) :
    mse modelFn lw kin p st f pt tgt = .ok (none, (modelFn p st (f, pt)).2) := by
  have hnum : (((getKinematicMask kin pt).map (fun b => !b)).count true) = 0 := by
    rw [List.count_eq_zero]
    intro hmem
    simp only [getKinematicMask, List.map_map, List.mem_map, Function.comp_def] at hmem
    obtain ⟨t, ht, hbe⟩ := hmem
    rw [hkin t ht] at hbe
    simp at hbe
  simp only [mse]
  rw [hok]
  simp [jdiv, hnum]

/-- Witness for the amended C2: the concrete all-kinematic sample evaluates
to `.ok` with the NaN marker. -/
theorem all_kinematic_loss_is_nan_witness :
    mse cModelFn cLossConfig (fun t => decide (t = 1)) () () () [1, 1]
        [(0, [[5, 5], [6, 6]])] = .ok (none, ()) :=
  all_kinematic_loss_is_nan cModelFn cLossConfig (fun t => decide (t = 1)) () () ()
    [1, 1] [(0, [[5, 5], [6, 6]])] (by decide) (by decide)

/-! ## C5: the per-sample loss formula -/

theorem ite_list_sum (b : Bool) :
    ∀ l : List ℚ, (if b then l.sum else 0) = (l.map (fun x => if b then x else 0)).sum := by
  cases b
  · intro l
    induction l with
    | nil => simp
    | cons x l ih => simp [ih]
  · intro l
    simp

theorem mseShapeCheck_ok (pred tgt : PredMap) :
    ∀ keys : List Nat,
      (∀ k ∈ keys, ∃ pm tm, pred.lookup k = some pm ∧ tgt.lookup k = some tm ∧
        matShape tm = matShape pm) →
      mseShapeCheck pred tgt keys = .ok () := by
  intro keys
  induction keys with
  | nil => intro _; rfl
  | cons k ks ih =>
    intro h
    obtain ⟨pm, tm, hp, ht, hs⟩ := h k (List.mem_cons_self k ks)
    simp only [mseShapeCheck, ht, hp]
    rw [if_pos (by simpa [hp] using hs)]
    exact ih (fun k2 hk2 => h k2 (List.mem_cons_of_mem k hk2))

/-- The loss value exactly as claim C5 states it: the sum over the active
output channels (nonzero loss weight and predicted by the model) of the
weighted squared prediction error summed over the last axis, with the contribution
of every kinematic particle set to zero, divided by the number of non-kinematic
particles. -/
def mseClaimLoss (lw : LossConfig) (kin : Nat → Bool) (pt : List Nat)
    (pred tgt : PredMap) : ℚ :=
  ((mseKeys lw pred).map (fun k =>
    ((List.range pt.length).map (fun i =>
      if kin (pt.getD i 0) then 0
      else lw.get k *
        ((List.zipWith (fun a b => (a - b) * (a - b))
          (((pred.lookup k).getD []).getD i [])
          (((tgt.lookup k).getD []).getD i [])).sum))).sum)).sum
  / ((pt.countP (fun t => !(kin t)) : Nat) : ℚ)

theorem mse_numerator (lw : LossConfig) (kin : Nat → Bool) (pt : List Nat)
    (pred tgt : PredMap)
    (hsh : ∀ k ∈ mseKeys lw pred, ∃ pm tm, pred.lookup k = some pm ∧
      tgt.lookup k = some tm ∧ matShape tm = matShape pm ∧ pm.length = pt.length) :
    (List.zipWith (fun b v => if b then v else 0)
      ((getKinematicMask kin pt).map (fun b => !b))
      ((List.range pt.length).map (fun i =>
        (((mseKeys lw pred).map (fun k =>
          channelLoss (lw.get k) ((pred.lookup k).getD []) ((tgt.lookup k).getD []))).map
            (fun l => l.getD i 0)).sum))).sum =
    ((mseKeys lw pred).map (fun k =>
      ((List.range pt.length).map (fun i =>
        if kin (pt.getD i 0) then 0
        else lw.get k *
          ((List.zipWith (fun a b => (a - b) * (a - b))
            (((pred.lookup k).getD []).getD i [])
            (((tgt.lookup k).getD []).getD i [])).sum))).sum)).sum := by
  have hmlen : ((getKinematicMask kin pt).map (fun b => !b)).length = pt.length := by
    simp [getKinematicMask]
  rw [zipWith_mask_sum ((getKinematicMask kin pt).map (fun b => !b))
    ((List.range pt.length).map (fun i =>
      (((mseKeys lw pred).map (fun k =>
        channelLoss (lw.get k) ((pred.lookup k).getD []) ((tgt.lookup k).getD []))).map
          (fun l => l.getD i 0)).sum)) (by simp [hmlen])]
  rw [hmlen]
  have hmask : ∀ i : Nat, i < pt.length →
      (((getKinematicMask kin pt).map (fun b => !b)).getD i false) =
        !(kin (pt.getD i 0)) := by
    intro i hi
    rw [getD_map (fun b => !b) (getKinematicMask kin pt) true false
      (by simpa [getKinematicMask] using hi)]
    rw [getKinematicMask, getD_map kin pt 0 true hi]
  have hstep1 : ∑ i in Finset.range pt.length,
      (if (((getKinematicMask kin pt).map (fun b => !b)).getD i false) then
        ((((List.range pt.length).map (fun j =>
          (((mseKeys lw pred).map (fun k =>
            channelLoss (lw.get k)
              ((pred.lookup k).getD []) ((tgt.lookup k).getD []))).map
                (fun l => l.getD j 0)).sum))).getD i 0) else 0) =
      ∑ i in Finset.range pt.length,
      ((((mseKeys lw pred).map (fun k =>
        channelLoss (lw.get k)
          ((pred.lookup k).getD []) ((tgt.lookup k).getD []))).map
        (fun l => if !(kin (pt.getD i 0)) then l.getD i 0 else 0)).sum) := by
    apply Finset.sum_congr rfl
    intro i hi
    have hi2 : i < pt.length := Finset.mem_range.1 hi
    rw [hmask i hi2]
    rw [getD_range_map (fun j =>
      (((mseKeys lw pred).map (fun k =>
        channelLoss (lw.get k)
          ((pred.lookup k).getD []) ((tgt.lookup k).getD []))).map
            (fun l => l.getD j 0)).sum) 0 hi2]
    rw [ite_list_sum]
    rw [List.map_map]
    rfl
  rw [hstep1]
  have hstep2 : ∑ i in Finset.range pt.length,
      ((((mseKeys lw pred).map (fun k =>
        channelLoss (lw.get k)
          ((pred.lookup k).getD []) ((tgt.lookup k).getD []))).map
        (fun l => if !(kin (pt.getD i 0)) then l.getD i 0 else 0)).sum) =
      ∑ i in Finset.range pt.length,
      (((mseKeys lw pred).map
        (fun k => if !(kin (pt.getD i 0)) then
          (channelLoss (lw.get k)
            ((pred.lookup k).getD []) ((tgt.lookup k).getD [])).getD i 0 else 0)).sum) := by
    apply Finset.sum_congr rfl
    intro i _
    rw [List.map_map]
    rfl
  rw [hstep2]
  rw [sum_finset_listmap pt.length (mseKeys lw pred)
    (fun i k => if !(kin (pt.getD i 0)) then
      (channelLoss (lw.get k)
        ((pred.lookup k).getD []) ((tgt.lookup k).getD [])).getD i 0 else 0)]
  apply congrArg List.sum
  apply List.map_congr_left
  intro k hk
  obtain ⟨pm, tm, hp, ht, hs, hplen⟩ := hsh k hk
  have htlen : tm.length = pt.length := by
    have := congrArg Prod.fst hs
    simp only [matShape] at this
    omega
  rw [sum_range_map]
  apply Finset.sum_congr rfl
  intro i hi
  have hi2 : i < pt.length := Finset.mem_range.1 hi
  rw [hp, ht]
  simp only [Option.getD_some]
  rw [channelLoss]
  rw [zipWith_getD (fun pr tr => lw.get k *
      ((List.zipWith (fun a b => (a - b) * (a - b)) pr tr).sum)) pm tm [] [] 0 i
    (by omega) (by omega)]
  cases hkin : kin (pt.getD i 0) <;> simp

/-- C5: for every sample whose shapes are consistent and which has at least
one non-kinematic particle, the per-sample loss computed by `_mse` equals
the sum over the active output channels (channels with nonzero loss weight
that the model predicts) of the weighted squared prediction error summed
over the last axis, with the contribution of every kinematic particle set to zero,
divided by the number of non-kinematic particles. -/
theorem mse_loss_formula {P S F : Type}
    (modelFn : P → S → F × List Nat → PredMap × S) (lw : LossConfig)
    (kin : Nat → Bool) (p : P) (st : S) (f : F) (pt : List Nat) (tgt : PredMap)
    (hsh : ∀ k ∈ mseKeys lw (modelFn p st (f, pt)).1,
      ∃ pm tm, (modelFn p st (f, pt)).1.lookup k = some pm ∧
        tgt.lookup k = some tm ∧ matShape tm = matShape pm ∧ pm.length = pt.length)
    (hnum : 0 < pt.countP (fun t => !(kin t))) :
    mse modelFn lw kin p st f pt tgt =
      .ok (some (mseClaimLoss lw kin pt (modelFn p st (f, pt)).1 tgt),
        (modelFn p st (f, pt)).2) := by
  have hok : mseShapeCheck (modelFn p st (f, pt)).1 tgt
      (mseKeys lw (modelFn p st (f, pt)).1) = .ok () := by
    apply mseShapeCheck_ok
    intro k hk
    obtain ⟨pm, tm, hp, ht, hs, _⟩ := hsh k hk
    exact ⟨pm, tm, hp, ht, hs⟩
  have hcnt : ((((getKinematicMask kin pt).map (fun b => !b))).count true) =
      pt.countP (fun t => !(kin t)) := by
    rw [getKinematicMask]
    exact count_true_map_not_map kin pt
  simp only [mse]
  rw [hok]
  rw [mse_numerator lw kin pt (modelFn p st (f, pt)).1 tgt hsh]
  rw [jdiv, hcnt, if_neg (by omega)]
  rw [mseClaimLoss]

/-- Witness for C5: on a concrete two-particle sample (particle 0 fluid,
particle 1 kinematic) with weight-1 channel 0, the loss evaluates through
the claimed formula to the explicit value 1. -/
theorem mse_loss_formula_witness :
    mse cModelFn cLossConfig (fun t => decide (t = 1)) () () () [0, 1]
        [(0, [[1, 1], [3, 3]])] = .ok (some 1, ()) := by
  have h := mse_loss_formula cModelFn cLossConfig (fun t => decide (t = 1)) () () ()
    [0, 1] [(0, [[1, 1], [3, 3]])]
    (by
      intro k hk
      have hk2 : k ∈ [0] := hk
      have hk3 : k = 0 := by simpa using hk2
      subst hk3
      exact ⟨[[1, 2], [3, 4]], [[1, 1], [3, 3]], rfl, rfl, rfl, rfl⟩)
    (by decide)
  rw [h]
  have hval : mseClaimLoss cLossConfig (fun t => decide (t = 1)) [0, 1]
      (cModelFn () () ((), [0, 1])).1 [(0, [[1, 1], [3, 3]])] = 1 := by
    simp [mseClaimLoss, mseKeys, LossConfig.nonzero, LossConfig.get, cLossConfig,
      cModelFn, List.range_succ]
    norm_num
  rw [hval]

/-! ## C9: the windowed dataset -/

theorem cumsum_replicate (n s : Nat) :
    cumsum (List.replicate n s) = (List.range n).map (fun j => (j + 1) * s) := by
  induction n with
  | zero => rfl
  | succ n ih =>
    rw [List.replicate_succ, cumsum, ih, List.range_succ_eq_map]
    rw [List.map_cons, List.map_map, List.map_map]
    congr 1
    · simp
    · apply List.map_congr_left
      intro j _
      simp only [Function.comp]
      rw [Nat.succ_eq_add_one]
      ring

theorem countP_range_lt (k : Nat) : ∀ n : Nat,
    (List.range n).countP (fun j => decide (j < k)) = min k n := by
  intro n
  induction n with
  | zero => simp
  | succ n ih =>
    rw [List.range_succ, List.countP_append, ih]
    simp only [List.countP_cons, List.countP_nil]
    by_cases h : n < k
    · rw [decide_eq_true h, if_pos rfl]
      omega
    · rw [decide_eq_false h]
      simp only [Bool.false_eq_true, if_false]
      omega

theorem bisect_cum (numTrajs s idx : Nat) (hs : 0 < s) (hidx : idx < numTrajs * s) :
    bisectRight ((List.range numTrajs).map (fun j => (j + 1) * s)) idx = idx / s := by
  rw [bisectRight, List.countP_map]
  have hEq : ((fun v => decide (v ≤ idx)) ∘ (fun j => (j + 1) * s)) =
      (fun j => decide (j < idx / s)) := by
    funext j
    simp only [Function.comp]
    rw [decide_eq_decide]
    constructor
    · intro hle
      have h2 : j + 1 ≤ idx / s := (Nat.le_div_iff_mul_le hs).2 hle
      omega
    · intro hlt
      exact (Nat.le_div_iff_mul_le hs).1 hlt
  rw [hEq, countP_range_lt]
  have hdiv : idx / s < numTrajs := by
    rw [Nat.div_lt_iff_lt_mul hs]
    omega
  omega

/-- C9: for every training-mode dataset with window length
`W = input_sequence_length` strictly below the per-trajectory sequence
length `L`, the dataset length is `numTrajs * (L - W)`, and every index
`idx < len` is mapped to the unique trajectory `idx / (L - W)` and
in-trajectory offset `idx % (L - W)`: the returned window is exactly the `W`
consecutive frames starting at that offset, the target is the next frame,
the trajectory index is in range, all frame accesses are in bounds
(`el_idx + W ≤ L - 1`), and `(traj, offset)` determines `idx`
(`traj * (L - W) + offset = idx`). -/
theorem h5_get_window_correct {α : Type} (d : H5Train α)
    (hW : d.inputSeqLength < d.seqLength) :
    d.numSamples = d.numTrajs * (d.seqLength - d.inputSeqLength) ∧
    ∀ idx, idx < d.numSamples →
      d.getWindow idx =
        ((List.range d.inputSeqLength).map
          (fun i => d.pos (idx / (d.seqLength - d.inputSeqLength))
            (idx % (d.seqLength - d.inputSeqLength) + i)),
         d.ptypes (idx / (d.seqLength - d.inputSeqLength)),
         d.pos (idx / (d.seqLength - d.inputSeqLength))
           (idx % (d.seqLength - d.inputSeqLength) + d.inputSeqLength)) ∧
      idx / (d.seqLength - d.inputSeqLength) < d.numTrajs ∧
      idx % (d.seqLength - d.inputSeqLength) + d.inputSeqLength ≤ d.seqLength - 1 ∧
      (idx / (d.seqLength - d.inputSeqLength)) * (d.seqLength - d.inputSeqLength) +
        idx % (d.seqLength - d.inputSeqLength) = idx := by
  have hs : 0 < d.seqLength - d.inputSeqLength := by omega
  have hlen : d.numSamples = d.numTrajs * (d.seqLength - d.inputSeqLength) := by
    rw [H5Train.numSamples, H5Train.keylens, List.sum_replicate, smul_eq_mul]
  refine ⟨hlen, ?_⟩
  intro idx hidx
  rw [hlen] at hidx
  have hcum : d.keylenCumulative =
      (List.range d.numTrajs).map (fun j => (j + 1) * (d.seqLength - d.inputSeqLength)) := by
    rw [H5Train.keylenCumulative, H5Train.keylens, cumsum_replicate]
  have htraj : d.trajIdx idx = idx / (d.seqLength - d.inputSeqLength) := by
    rw [H5Train.trajIdx, hcum]
    exact bisect_cum d.numTrajs (d.seqLength - d.inputSeqLength) idx hs hidx
  have hdivlt : idx / (d.seqLength - d.inputSeqLength) < d.numTrajs := by
    rw [Nat.div_lt_iff_lt_mul hs]
    omega
  have hdm : idx / (d.seqLength - d.inputSeqLength) * (d.seqLength - d.inputSeqLength) +
      idx % (d.seqLength - d.inputSeqLength) = idx := by
    rw [Nat.mul_comm]
    exact Nat.div_add_mod idx (d.seqLength - d.inputSeqLength)
  have hmlt : idx % (d.seqLength - d.inputSeqLength) < d.seqLength - d.inputSeqLength :=
    Nat.mod_lt idx hs
  have hel : d.elIdx idx = idx % (d.seqLength - d.inputSeqLength) := by
    rw [H5Train.elIdx, htraj]
    by_cases hz : idx / (d.seqLength - d.inputSeqLength) = 0
    · rw [if_pos hz]
      rw [hz] at hdm
      omega
    · rw [if_neg hz, hcum]
      rw [getD_range_map (fun j => (j + 1) * (d.seqLength - d.inputSeqLength)) 0
        (show idx / (d.seqLength - d.inputSeqLength) - 1 < d.numTrajs by omega)]
      have h3 : (idx / (d.seqLength - d.inputSeqLength) - 1 + 1) =
          idx / (d.seqLength - d.inputSeqLength) := by omega
      rw [h3]
      omega
  refine ⟨?_, hdivlt, by omega, hdm⟩
  rw [H5Train.getWindow, htraj, hel]

/-- Witness for C9: on a concrete dataset with 2 trajectories of 4 frames
and window length 2, index 3 maps to trajectory 1, offset 1: frames 101
and 102 with target 103 (frames encoded as `100 * traj + frame`). -/
theorem h5_get_window_correct_witness :
    (⟨2, 4, 2, fun t f => 100 * t + f, fun t => [t]⟩ : H5Train Nat).getWindow 3 =
      ([101, 102], [1], 103) := by
  have h := h5_get_window_correct (⟨2, 4, 2, fun t f => 100 * t + f, fun t => [t]⟩ :
    H5Train Nat) (by decide)
  have h2 := (h.2 3 (by decide)).1
  rw [h2]
  rfl

end LagrangeBench
